import Mathlib

/-!
Verification development for the cosmic-vitals-applet repository
(`src/app.rs`).  The sampler functions and the selection-store logic of
`YourApp::update` / `YourApp::view` are embedded shallowly.  OS state
(memory counters, mounted volumes, temperature components) is passed
explicitly as an environment, mirroring what `sysinfo` reads at each call.
Rust `f64` arithmetic in `to_gb` and the `{:.2}` formatting are idealized
as exact rational arithmetic with round-half-to-even on the hundredths
digit; `u64`/`u32` counters are modelled as `Nat`.  The `fl!(...)`
localization macro is modelled as returning its key string.
-/

namespace Vitals

/-- Embeds `StatType` (src/app.rs lines 23-28). -/
inductive StatType : Type
  | Ram (name : String)
  | Disk (name : String)
  | MaxTemp (name : String)
deriving DecidableEq, Repr

/-- Embeds `Stat` (src/app.rs lines 30-35). -/
structure Stat : Type where
  stat_type : StatType
  «show» : Bool
  label : String
deriving DecidableEq, Repr

/-- Memory counters reported by `sysinfo::System` after `refresh_memory`,
in bytes, in the order `get_ram_stats` reads them. -/
structure MemStats : Type where
  total_memory : Nat
  used_memory : Nat
  free_memory : Nat
  available_memory : Nat
  free_swap : Nat
  total_swap : Nat
  used_swap : Nat
deriving DecidableEq, Repr

/-- The OS snapshot visible to the sampler functions: memory counters,
the enumerated volumes as `(name, available_space)` pairs in the order
the OS reports them, and the temperature components as
`(label, temperature)` pairs (the `f32 as u32` cast is applied already). -/
structure Env : Type where
  mem : MemStats
  disks : List (String × Nat)
  comps : List (String × Nat)
deriving DecidableEq, Repr

/-- Embeds `to_gb` (src/app.rs lines 51-53): `bytes as f64 / 1000.0 / 1000.0
/ 1000.0`, with `f64` idealized as exact rational arithmetic. -/
def to_gb (bytes : Nat) : ℚ := (bytes : ℚ) / 1000 / 1000 / 1000

/-- The hundredths digit count of `bytes / 10^9` rounded to nearest with
ties to even: the exact-arithmetic idealization of what `{:.2}` prints
for `to_gb bytes`. -/
def roundHundredthsGB (bytes : Nat) : Nat :=
  if 2 * (bytes % 10000000) < 10000000 then bytes / 10000000
  else if 10000000 < 2 * (bytes % 10000000) then bytes / 10000000 + 1
  else if bytes / 10000000 % 2 = 0 then bytes / 10000000
  else bytes / 10000000 + 1

/-- Two-digit zero-padded rendering of a fractional part below 100. -/
def pad2 (n : Nat) : String :=
  String.mk [Nat.digitChar (n / 10 % 10), Nat.digitChar (n % 10)]

/-- Models `format!("{:.2}", to_gb(bytes))`. -/
def fmt_gb2 (bytes : Nat) : String :=
  toString (roundHundredthsGB bytes / 100) ++ "." ++ pad2 (roundHundredthsGB bytes % 100)

/-- Embeds `get_ram_stats` (src/app.rs lines 79-120): the seven
`(localized name, "{:.2} GB" value)` pairs pushed in order. -/
def get_ram_stats (m : MemStats) : List (String × String) :=
  [ ("total-ram", fmt_gb2 m.total_memory ++ " GB"),
    ("used-ram", fmt_gb2 m.used_memory ++ " GB"),
    ("free-ram", fmt_gb2 m.free_memory ++ " GB"),
    ("available-ram", fmt_gb2 m.available_memory ++ " GB"),
    ("free-swap", fmt_gb2 m.free_swap ++ " GB"),
    ("total-swap", fmt_gb2 m.total_swap ++ " GB"),
    ("used-swap", fmt_gb2 m.used_swap ++ " GB") ]

/-- Embeds `get_ram_usage` (src/app.rs lines 55-65): a loop over
`get_ram_stats` that overwrites the result on every name match
(last match wins), starting from the empty string. -/
def get_ram_usage (m : MemStats) (name : String) : String :=
  (get_ram_stats m).foldl
    (fun acc p => if name = p.1 then "RAM " ++ p.2 ++ " GB" else acc) ""

/-- Embeds `get_storage_usage` (src/app.rs lines 67-77): a loop over the
enumerated volumes that overwrites the result on every name match,
starting from the empty string. -/
def get_storage_usage (disks : List (String × Nat)) (name : String) : String :=
  disks.foldl
    (fun acc d => if d.1 = name then "Disk " ++ fmt_gb2 d.2 ++ " GB" else acc) ""

/-- Models `HashMap::insert` on the association-list contents of the map:
replace the binding if the key is present, otherwise add it.  The
iteration order of the Rust `HashMap` is unspecified; this model fixes
one order, which is harmless because `get_disks` sorts the collected
pairs by name before returning them. -/
def hashmap_insert (m : List (String × String)) (k v : String) : List (String × String) :=
  if m.any (fun p => p.1 = k) then
    m.map (fun p => if p.1 = k then (k, v) else p)
  else m ++ [(k, v)]

/-- Models `Vec::sort_by(|a, b| a.0.cmp(&b.0))`: a stable sort by the
first component.  A stable sort's output is uniquely determined by the
comparator, so insertion sort here computes the same function as the
stable merge sort the Rust standard library uses. -/
def sort_by_name (l : List (String × String)) : List (String × String) :=
  List.insertionSort (fun a b => a.1 ≤ b.1) l

/-- Embeds `get_disks` (src/app.rs lines 122-143): insert every volume's
`(name, "{:.2}" of available_space)` into a `HashMap`, collect, and sort
by name. -/
def get_disks (disks : List (String × Nat)) : List (String × String) :=
  sort_by_name (disks.foldl (fun m d => hashmap_insert m d.1 (fmt_gb2 d.2)) [])

/-- Embeds `get_temps` (src/app.rs lines 145-164): the per-component
`(label, temperature)` pairs sorted by label, followed by the `max-temp`
and `min-temp` entries, which are `unwrap_or(0)` of the maximum and
minimum over all components. -/
def get_temps (comps : List (String × Nat)) : List (String × String) :=
  sort_by_name (comps.map (fun c => (c.1, toString c.2)))
    ++ [("max-temp", toString (((comps.map (fun c => c.2)).max?).getD 0)),
        ("min-temp", toString (((comps.map (fun c => c.2)).min?).getD 0))]

/-- Embeds `get_temp_usage` (src/app.rs lines 166-174): return on the
first name match, otherwise the empty string. -/
def get_temp_usage (comps : List (String × Nat)) (name : String) : String :=
  match (get_temps comps).find? (fun p => name = p.1) with
  | some p => "Temp " ++ p.2 ++ " °C"
  | none => ""

/-- The two `Message` variants that touch the selection store
(src/app.rs lines 176-185); the popup and dropdown messages leave
`stats` untouched and are omitted. -/
inductive Message : Type
  | ToggleStat (stat : Stat)
  | Tick
deriving DecidableEq, Repr

/-- The sampling dispatch shared by the `ToggleStat` and `Tick` arms of
`YourApp::update` (src/app.rs lines 384-388 and 397-401). -/
def sample_label (env : Env) : StatType → String
  | StatType.Ram name => get_ram_usage env.mem name
  | StatType.Disk name => get_storage_usage env.disks name
  | StatType.MaxTemp name => get_temp_usage env.comps name

/-- Overwrite the `label` field of a `Stat`, as `stat.label = ...` does. -/
def set_label (s : Stat) (l : String) : Stat := ⟨s.stat_type, s.«show», l⟩

/-- Embeds the `stats`-relevant part of `YourApp::update`
(src/app.rs lines 382-403): `ToggleStat` with `show` set samples a label
and pushes the stat; with `show` clear it retains every stat of a
different `stat_type`; `Tick` re-samples every stored stat's label. -/
def update (env : Env) (stats : List Stat) : Message → List Stat
  | Message.ToggleStat stat =>
      if stat.«show» then
        stats ++ [set_label stat (sample_label env stat.stat_type)]
      else
        stats.filter (fun x => x.stat_type ≠ stat.stat_type)
  | Message.Tick =>
      stats.map (fun s => set_label s (sample_label env s.stat_type))

/-- Embeds the label strip built by `YourApp::view`
(src/app.rs lines 290-305): the loop pushes `stat.label` for every stat
with `stat.show` set, in store order. -/
def visible_labels (stats : List Stat) : List String :=
  stats.foldl (fun acc s => if s.«show» then acc ++ [s.label] else acc) []

/-- The `stat_type` keys of the store, in store order. -/
def keys (stats : List Stat) : List StatType := stats.map (fun s => s.stat_type)

/-- States reachable from the empty store by any sequence of `ToggleStat`
and `Tick` messages; the OS snapshot may differ at every step. -/
inductive Reachable : List Stat → Prop
  | empty : Reachable []
  | step (env : Env) (msg : Message) (stats : List Stat) :
      Reachable stats → Reachable (update env stats msg)

/-- States reachable from the empty store when a `ToggleStat` with `show`
set is only ever issued for a key not currently in the store — the
discipline the applet's toggler UI enforces. -/
inductive GuardedReachable : List Stat → Prop
  | empty : GuardedReachable []
  | toggle_on (env : Env) (stat : Stat) (stats : List Stat) :
      GuardedReachable stats → stat.«show» = true →
      stat.stat_type ∉ keys stats →
      GuardedReachable (update env stats (Message.ToggleStat stat))
  | toggle_off (env : Env) (stat : Stat) (stats : List Stat) :
      GuardedReachable stats → stat.«show» = false →
      GuardedReachable (update env stats (Message.ToggleStat stat))
  | tick (env : Env) (stats : List Stat) :
      GuardedReachable stats → GuardedReachable (update env stats Message.Tick)

/-- An OS snapshot with nothing mounted and no sensors. -/
def env0 : Env := ⟨⟨0, 0, 0, 0, 0, 0, 0⟩, [], []⟩

/-- The toggle message payload for watching used RAM. -/
def ram_stat0 : Stat := ⟨StatType.Ram "used-ram", true, ""⟩

/-- The store after toggling used RAM on twice from the empty store. -/
def dup_state : List Stat :=
  update env0 (update env0 [] (Message.ToggleStat ram_stat0)) (Message.ToggleStat ram_stat0)

/-- Unfolding the `view` accumulation: the loop appends onto its
accumulator the labels of the stats whose `show` flag is set. -/
theorem visible_labels_foldl (stats : List Stat) (acc : List String) :
    stats.foldl (fun acc s => if s.«show» then acc ++ [s.label] else acc) acc
      = acc ++ (stats.filter (fun s => s.«show»)).map (fun s => s.label) := by
  induction stats generalizing acc with
  | nil => simp
  | cons s rest ih =>
    by_cases h : s.«show» <;> simp [List.filter_cons, h, ih]

/-- A stat whose key is absent from the enumerated volumes samples to the
empty string: the loop in `get_storage_usage` never overwrites its
accumulator. -/
theorem storage_foldl_const (disks : List (String × Nat)) (name : String)
    (acc : String) (h : ∀ d ∈ disks, d.1 ≠ name) :
    disks.foldl (fun acc d => if d.1 = name then "Disk " ++ fmt_gb2 d.2 ++ " GB" else acc) acc
      = acc := by
  induction disks generalizing acc with
  | nil => rfl
  | cons d rest ih =>
    simp only [List.foldl_cons]
    rw [if_neg (h d (List.mem_cons_self d rest))]
    exact ih acc (fun x hx => h x (List.mem_cons_of_mem d hx))

/-- `get_storage_usage` of an absent volume name is the empty string. -/
theorem get_storage_usage_of_absent (disks : List (String × Nat)) (name : String)
    (h : ∀ d ∈ disks, d.1 ≠ name) : get_storage_usage disks name = "" :=
  storage_foldl_const disks name "" h

/-- Claim C1 is false on the code: toggling used RAM on twice from the
empty store leaves two entries for the key, not exactly one, because the
`ToggleStat` arm pushes unconditionally. -/
theorem c1_counterexample :
    List.countP (fun s => s.stat_type = StatType.Ram "used-ram") dup_state ≠ 1 := by
  decide

/-- Claim C1 (amended): performing `toggle(k, true)` twice in succession
from the empty store leaves exactly two entries for `k`; the second
toggle with `desired_visible = true` appends a duplicate entry rather
than being a no-op. -/
theorem c1_toggle_true_twice_two_entries (e1 e2 : Env) (stat : Stat)
    (h : stat.«show» = true) :
    List.countP (fun s => s.stat_type = stat.stat_type)
      (update e2 (update e1 [] (Message.ToggleStat stat)) (Message.ToggleStat stat)) = 2 := by
  simp [update, h, set_label, List.countP_cons]

/-- Witness for Claim C1 (amended) at the used-RAM key in the empty
environment. -/
theorem c1_witness :
    ram_stat0.«show» = true ∧
    List.countP (fun s => s.stat_type = ram_stat0.stat_type)
      (update env0 (update env0 [] (Message.ToggleStat ram_stat0))
        (Message.ToggleStat ram_stat0)) = 2 :=
  ⟨rfl, c1_toggle_true_twice_two_entries env0 env0 ram_stat0 rfl⟩

/-- Claim C2 is false on the code: the state reached from the empty store
by two `ToggleStat` messages for used RAM is reachable and holds two
entries with the same key. -/
theorem c2_counterexample : Reachable dup_state ∧ ¬ (keys dup_state).Nodup := by
  constructor
  · exact Reachable.step env0 (Message.ToggleStat ram_stat0) _
      (Reachable.step env0 (Message.ToggleStat ram_stat0) [] Reachable.empty)
  · decide

/-- Claim C2 (amended): in every state reachable from the empty store by
toggle and refresh operations in which a toggle-on is only issued for a
key not currently present (the discipline the applet's toggler UI
enforces), no two entries of the store share a key. -/
theorem c2_guarded_keys_nodup (stats : List Stat) (h : GuardedReachable stats) :
    (keys stats).Nodup := by
  induction h with
  | empty => simp [keys]
  | toggle_on env stat stats hr hshow hmem ih =>
    simp only [update, hshow, if_true, keys, List.map_append, List.map_cons, List.map_nil]
    rw [List.nodup_append]
    refine ⟨ih, List.nodup_singleton _, ?_⟩
    intro a ha hb
    have : a = stat.stat_type := by
      simpa [set_label] using hb
    exact hmem (this ▸ ha)
  | toggle_off env stat stats hr hshow ih =>
    simp only [update, hshow, Bool.false_eq_true, if_false, keys]
    exact ih.sublist ((List.filter_sublist stats).map (fun s => s.stat_type))
  | tick env stats hr ih =>
    simpa [update, keys, List.map_map, Function.comp, set_label] using ih

/-- Witness for Claim C2 (amended): the guarded state holding one used-RAM
entry has pairwise-distinct keys. -/
theorem c2_witness : (keys (update env0 [] (Message.ToggleStat ram_stat0))).Nodup :=
  c2_guarded_keys_nodup _
    (GuardedReachable.toggle_on env0 ram_stat0 [] GuardedReachable.empty rfl (by decide))

/-- A memory snapshot reporting 8,000,000,000 used bytes. -/
def env_ram8 : Env := ⟨⟨0, 8000000000, 0, 0, 0, 0, 0⟩, [], []⟩

/-- Claim C3 names the intended label, but the code produces
"RAM 8.00 GB GB": the value strings built by `get_ram_stats` already end
in " GB" and the format string of `get_ram_usage` appends a second " GB".
Evaluating the embedded code at the claim's input exhibits the bug. -/
theorem c3_code_bug_eval :
    update env_ram8 [] (Message.ToggleStat ⟨StatType.Ram "used-ram", true, ""⟩)
      = [⟨StatType.Ram "used-ram", true, "RAM 8.00 GB GB"⟩] ∧
    visible_labels
        (update env_ram8 [] (Message.ToggleStat ⟨StatType.Ram "used-ram", true, ""⟩))
      = ["RAM 8.00 GB GB"] ∧
    visible_labels
        (update env_ram8 [] (Message.ToggleStat ⟨StatType.Ram "used-ram", true, ""⟩))
      ≠ ["RAM 8.00 GB"] := by
  exact ⟨by decide, by decide, by decide⟩

/-- Claim C4: a `Tick` preserves the number of entries, the sequence of
keys, and the sequence of `show` flags; entries correspond positionally,
so only the `label` field can change. -/
theorem c4_tick_frame (env : Env) (stats : List Stat) :
    (update env stats Message.Tick).length = stats.length ∧
    keys (update env stats Message.Tick) = keys stats ∧
    (update env stats Message.Tick).map (fun s => s.«show»)
      = stats.map (fun s => s.«show») := by
  refine ⟨?_, ?_, ?_⟩ <;>
    simp [update, keys, set_label, List.map_map, Function.comp]

/-- Claim C7: with no temperature components reported, `get_temps` yields
exactly the derived max-temp and min-temp entries, both carrying 0. -/
theorem c7_no_sensors_max_min_zero :
    get_temps [] = [("max-temp", "0"), ("min-temp", "0")] := by
  decide

/-- Claim C5: if the store holds a `Disk "sda1"` entry and the enumerated
volumes no longer include a volume named "sda1", a `Tick` keeps the entry
(same entry count) with its label overwritten to the empty string; the
samplers are total, so no error reaches the store. -/
theorem c5_missing_disk_refresh (env : Env) (stats : List Stat) (s : Stat)
    (hd : ∀ d ∈ env.disks, d.1 ≠ "sda1")
    (hs : s ∈ stats) (ht : s.stat_type = StatType.Disk "sda1") :
    set_label s "" ∈ update env stats Message.Tick ∧
    (update env stats Message.Tick).length = stats.length := by
  constructor
  · have hlab : sample_label env s.stat_type = "" := by
      rw [ht]
      exact get_storage_usage_of_absent env.disks "sda1" hd
    have hmem : set_label s (sample_label env s.stat_type)
        ∈ stats.map (fun s => set_label s (sample_label env s.stat_type)) :=
      List.mem_map_of_mem (fun s => set_label s (sample_label env s.stat_type)) hs
    rw [hlab] at hmem
    simpa [update] using hmem
  · simp [update]

/-- An OS snapshot whose only volume is "sdb1". -/
def env_sdb : Env := ⟨⟨0, 0, 0, 0, 0, 0, 0⟩, [("sdb1", 5000000000)], []⟩

/-- A watched entry for the no-longer-present volume "sda1". -/
def stat_sda1 : Stat := ⟨StatType.Disk "sda1", true, "Disk 5.00 GB"⟩

/-- Witness for Claim C5: refreshing a store watching "sda1" while only
"sdb1" is mounted keeps the entry with an empty label. -/
theorem c5_witness :
    set_label stat_sda1 "" ∈ update env_sdb [stat_sda1] Message.Tick ∧
    (update env_sdb [stat_sda1] Message.Tick).length = 1 :=
  c5_missing_disk_refresh env_sdb [stat_sda1] stat_sda1 (by decide) (by decide) rfl

/-- Claim C6: the label strip built by `view` consists exactly of the
labels of the entries whose `show` flag is set, in store order, and its
length is the count of such entries. -/
theorem c6_visible_labels (stats : List Stat) :
    visible_labels stats
      = (stats.filter (fun s => s.«show»)).map (fun s => s.label) ∧
    (visible_labels stats).length = stats.countP (fun s => s.«show») := by
  have h : visible_labels stats
      = (stats.filter (fun s => s.«show»)).map (fun s => s.label) := by
    simpa [visible_labels] using visible_labels_foldl stats []
  refine ⟨h, ?_⟩
  rw [h, List.length_map, ← List.countP_eq_length_filter]

/-- Claim C10: in every reachable state each stored entry has its `show`
flag set — entries are only inserted with `show = true`, a `Tick` never
touches `show`, and toggling off removes entries — so the visible label
strip lists every stored entry's label. -/
theorem c10_all_entries_visible (stats : List Stat) (h : Reachable stats) :
    (∀ s ∈ stats, s.«show» = true) ∧
    visible_labels stats = stats.map (fun s => s.label) := by
  have hshow : ∀ s ∈ stats, s.«show» = true := by
    induction h with
    | empty => simp
    | step env msg stats hr ih =>
      cases msg with
      | ToggleStat stat =>
        by_cases hb : stat.«show»
        · intro s hs
          simp only [update, hb, if_true] at hs
          rcases List.mem_append.mp hs with hleft | hright
          · exact ih s hleft
          · have : s = set_label stat (sample_label env stat.stat_type) := by
              simpa using hright
            rw [this]
            simpa [set_label] using hb
        · intro s hs
          simp only [update, hb, if_false] at hs
          exact ih s (List.mem_of_mem_filter hs)
      | Tick =>
        intro s hs
        simp only [update] at hs
        obtain ⟨t, hst, rfl⟩ := List.mem_map.mp hs
        simpa [set_label] using ih t hst
  refine ⟨hshow, ?_⟩
  have h1 : visible_labels stats
      = (stats.filter (fun s => s.«show»)).map (fun s => s.label) := by
    simpa [visible_labels] using visible_labels_foldl stats []
  rw [h1, List.filter_eq_self.mpr hshow]

/-- Witness for Claim C10 at the reachable state holding one used-RAM
entry. -/
theorem c10_witness :
    visible_labels (update env0 [] (Message.ToggleStat ram_stat0))
      = (update env0 [] (Message.ToggleStat ram_stat0)).map (fun s => s.label) :=
  (c10_all_entries_visible _
    (Reachable.step env0 (Message.ToggleStat ram_stat0) [] Reachable.empty)).2

/-- Integer bracketing of the rounded hundredths count: it is within half
a unit of `bytes / 10^7` exactly. -/
theorem roundHundredthsGB_int_bound (b : Nat) :
    2 * roundHundredthsGB b * 10000000 ≤ 2 * b + 10000000 ∧
    2 * b ≤ 2 * roundHundredthsGB b * 10000000 + 10000000 := by
  unfold roundHundredthsGB
  split_ifs <;> constructor <;> omega

/-- The rounded hundredths count is within 1/2 of the exact rational
`bytes / 10^7`. -/
theorem roundHundredthsGB_rat_bound (b : Nat) :
    |((roundHundredthsGB b : ℚ)) - (b : ℚ) / 10000000| ≤ 1 / 2 := by
  obtain ⟨k1, k2⟩ := roundHundredthsGB_int_bound b
  have q1 : ((2 * roundHundredthsGB b * 10000000 : ℕ) : ℚ)
      ≤ ((2 * b + 10000000 : ℕ) : ℚ) := by exact_mod_cast k1
  have q2 : ((2 * b : ℕ) : ℚ)
      ≤ ((2 * roundHundredthsGB b * 10000000 + 10000000 : ℕ) : ℚ) := by exact_mod_cast k2
  push_cast at q1 q2
  rw [abs_sub_le_iff]
  constructor <;> linarith

/-- `to_gb` divides by the decimal factor `10^9`, not by `2^30`. -/
theorem to_gb_eq (b : Nat) : to_gb b = (b : ℚ) / 10 ^ 9 := by
  unfold to_gb
  rw [div_div, div_div]
  norm_num

/-- The two-decimal number displayed for a byte count is within half of
the last printed digit of the exact value `bytes / 10^9`. -/
theorem display_error_bound (b : Nat) :
    |((roundHundredthsGB b : ℚ)) / 100 - to_gb b| ≤ 1 / 200 := by
  have hb := roundHundredthsGB_rat_bound b
  have e : ((roundHundredthsGB b : ℚ)) / 100 - to_gb b
      = (((roundHundredthsGB b : ℚ)) - (b : ℚ) / 10000000) / 100 := by
    rw [to_gb_eq]
    ring
  rw [e, abs_div, abs_of_pos (show (0 : ℚ) < 100 by norm_num)]
  linarith

/-- `Nat.digitChar` of a value below ten is a digit character. -/
theorem digitChar_isDigit {n : Nat} (h : n < 10) : (Nat.digitChar n).isDigit = true := by
  interval_cases n <;> decide

/-- The padded fractional part always has exactly two characters. -/
theorem pad2_length (n : Nat) : (pad2 n).length = 2 := rfl

/-- Both characters of the padded fractional part are digits. -/
theorem pad2_digits (n : Nat) : ∀ c ∈ (pad2 n).data, c.isDigit = true := by
  intro c hc
  have hc' : c = Nat.digitChar (n / 10 % 10) ∨ c = Nat.digitChar (n % 10) := by
    simpa [pad2] using hc
  rcases hc' with h | h <;> rw [h] <;>
    exact digitChar_isDigit (Nat.mod_lt _ (by norm_num))

/-- Every rendered value splits as an integer part, a dot, and exactly
two digit characters. -/
theorem fmt_gb2_two_decimals (b : Nat) :
    ∃ w f, fmt_gb2 b = w ++ "." ++ f ∧ f.length = 2 ∧ ∀ c ∈ f.data, c.isDigit = true :=
  ⟨toString (roundHundredthsGB b / 100), pad2 (roundHundredthsGB b % 100), rfl,
    pad2_length _, pad2_digits _⟩

/-- Claim C8: every memory counter appearing in `get_ram_stats` is
rendered as `fmt_gb2` of its byte count followed by " GB", where the
underlying division is by the decimal `10^9` (not `2^30`), the printed
two-decimal number is within half of the last digit of the exact
quotient, and the fractional part has exactly two digit characters. -/
theorem c8_ram_two_decimal_gb (m : MemStats) (p : String × String)
    (hp : p ∈ get_ram_stats m) :
    ∃ bytes : Nat,
      bytes ∈ [m.total_memory, m.used_memory, m.free_memory, m.available_memory,
               m.free_swap, m.total_swap, m.used_swap] ∧
      p.2 = fmt_gb2 bytes ++ " GB" ∧
      to_gb bytes = (bytes : ℚ) / 10 ^ 9 ∧
      |((roundHundredthsGB bytes : ℚ)) / 100 - to_gb bytes| ≤ 1 / 200 ∧
      ∃ w f, fmt_gb2 bytes = w ++ "." ++ f ∧ f.length = 2 ∧
        ∀ c ∈ f.data, c.isDigit = true := by
  simp only [get_ram_stats, List.mem_cons, List.not_mem_nil, or_false] at hp
  rcases hp with h | h | h | h | h | h | h
  · exact h ▸ ⟨m.total_memory, by simp, rfl, to_gb_eq _, display_error_bound _,
      fmt_gb2_two_decimals _⟩
  · exact h ▸ ⟨m.used_memory, by simp, rfl, to_gb_eq _, display_error_bound _,
      fmt_gb2_two_decimals _⟩
  · exact h ▸ ⟨m.free_memory, by simp, rfl, to_gb_eq _, display_error_bound _,
      fmt_gb2_two_decimals _⟩
  · exact h ▸ ⟨m.available_memory, by simp, rfl, to_gb_eq _, display_error_bound _,
      fmt_gb2_two_decimals _⟩
  · exact h ▸ ⟨m.free_swap, by simp, rfl, to_gb_eq _, display_error_bound _,
      fmt_gb2_two_decimals _⟩
  · exact h ▸ ⟨m.total_swap, by simp, rfl, to_gb_eq _, display_error_bound _,
      fmt_gb2_two_decimals _⟩
  · exact h ▸ ⟨m.used_swap, by simp, rfl, to_gb_eq _, display_error_bound _,
      fmt_gb2_two_decimals _⟩

/-- Witness for Claim C8 at the used-memory entry of the snapshot with
8,000,000,000 used bytes. -/
theorem c8_witness :
    (("used-ram", fmt_gb2 8000000000 ++ " GB") ∈ get_ram_stats env_ram8.mem) ∧
    (∃ bytes : Nat,
      bytes ∈ [env_ram8.mem.total_memory, env_ram8.mem.used_memory,
               env_ram8.mem.free_memory, env_ram8.mem.available_memory,
               env_ram8.mem.free_swap, env_ram8.mem.total_swap,
               env_ram8.mem.used_swap] ∧
      ("used-ram", fmt_gb2 8000000000 ++ " GB").2 = fmt_gb2 bytes ++ " GB" ∧
      to_gb bytes = (bytes : ℚ) / 10 ^ 9 ∧
      |((roundHundredthsGB bytes : ℚ)) / 100 - to_gb bytes| ≤ 1 / 200 ∧
      ∃ w f, fmt_gb2 bytes = w ++ "." ++ f ∧ f.length = 2 ∧
        ∀ c ∈ f.data, c.isDigit = true) :=
  ⟨by decide, c8_ram_two_decimal_gb env_ram8.mem _ (by decide)⟩

/-- The formatted `(name, "{:.2}" of available_space)` pairs of the
enumerated volumes, in enumeration order. -/
def disks_fmt (l : List (String × Nat)) : List (String × String) :=
  l.map (fun d => (d.1, fmt_gb2 d.2))

instance : IsTotal (String × String) (fun a b => a.1 ≤ b.1) :=
  ⟨fun a b => le_total a.1 b.1⟩

instance : IsTrans (String × String) (fun a b => a.1 ≤ b.1) :=
  ⟨fun _ _ _ h1 h2 => le_trans h1 h2⟩

instance : IsAntisymm (String × String) (fun a b => a.1 < b.1) :=
  ⟨fun _ _ h1 h2 => absurd h2 (lt_asymm h1)⟩

/-- When no volume name repeats, the `HashMap` fold of `get_disks` never
replaces a binding: it collects exactly the formatted pairs in order. -/
theorem hashmap_fold_append (l : List (String × Nat)) :
    ∀ acc : List (String × String),
      (∀ k ∈ acc.map Prod.fst, k ∉ l.map Prod.fst) →
      (l.map Prod.fst).Nodup →
      l.foldl (fun m d => hashmap_insert m d.1 (fmt_gb2 d.2)) acc = acc ++ disks_fmt l := by
  induction l with
  | nil =>
    intro acc _ _
    simp [disks_fmt]
  | cons d rest ih =>
    intro acc hdisj hnd
    have hd1 : d.1 ∉ rest.map Prod.fst := (List.nodup_cons.mp hnd).1
    have hndr : (rest.map Prod.fst).Nodup := (List.nodup_cons.mp hnd).2
    have hnotany : ¬ (acc.any (fun p => p.1 = d.1) = true) := by
      simp only [List.any_eq_true, decide_eq_true_eq]
      rintro ⟨p, hp, hpd⟩
      exact hdisj p.1 (List.mem_map_of_mem Prod.fst hp) (by simp [hpd])
    have hins : hashmap_insert acc d.1 (fmt_gb2 d.2) = acc ++ [(d.1, fmt_gb2 d.2)] := by
      unfold hashmap_insert
      rw [if_neg hnotany]
    simp only [List.foldl_cons]
    rw [hins, ih (acc ++ [(d.1, fmt_gb2 d.2)]) ?_ hndr]
    · simp [disks_fmt]
    · intro k hk
      have hk' : k ∈ acc.map Prod.fst ∨ k = d.1 := by
        simpa using hk
      rcases hk' with hk' | rfl
      · intro hkr
        exact hdisj k hk' (by simp [hkr])
      · exact hd1

/-- With pairwise-distinct volume names, `get_disks` is the stable sort
by name of the formatted enumeration. -/
theorem get_disks_eq_sorted_fmt (l : List (String × Nat))
    (hnd : (l.map Prod.fst).Nodup) :
    get_disks l = sort_by_name (disks_fmt l) := by
  unfold get_disks
  rw [hashmap_fold_append l [] (by simp) hnd]
  simp

/-- Formatting each volume's free space leaves the name sequence
unchanged. -/
theorem disks_fmt_keys (l : List (String × Nat)) :
    (disks_fmt l).map Prod.fst = l.map Prod.fst := by
  simp [disks_fmt, List.map_map, Function.comp]

/-- Two enumerations of the same volumes with pairwise-distinct names
sort to the same sequence. -/
theorem sort_by_name_perm_eq (xs ys : List (String × String))
    (hnd : (xs.map Prod.fst).Nodup) (hp : xs.Perm ys) :
    sort_by_name xs = sort_by_name ys := by
  have p1 : (sort_by_name xs).Perm xs := List.perm_insertionSort _ xs
  have p2 : (sort_by_name ys).Perm ys := List.perm_insertionSort _ ys
  have pq : (sort_by_name xs).Perm (sort_by_name ys) := p1.trans (hp.trans p2.symm)
  have s1 : (sort_by_name xs).Sorted (fun a b => a.1 ≤ b.1) :=
    List.sorted_insertionSort _ xs
  have s2 : (sort_by_name ys).Sorted (fun a b => a.1 ≤ b.1) :=
    List.sorted_insertionSort _ ys
  have hndy : (ys.map Prod.fst).Nodup := ((hp.map Prod.fst).nodup_iff).mp hnd
  have nd1 : ((sort_by_name xs).map Prod.fst).Nodup := ((p1.map Prod.fst).nodup_iff).mpr hnd
  have nd2 : ((sort_by_name ys).map Prod.fst).Nodup := ((p2.map Prod.fst).nodup_iff).mpr hndy
  have st1 : (sort_by_name xs).Sorted (fun a b => a.1 < b.1) := by
    have pw : (sort_by_name xs).Pairwise (fun a b => a.1 ≠ b.1) :=
      List.pairwise_map.mp nd1
    exact (s1.and pw).imp (fun h => lt_of_le_of_ne h.1 h.2)
  have st2 : (sort_by_name ys).Sorted (fun a b => a.1 < b.1) := by
    have pw : (sort_by_name ys).Pairwise (fun a b => a.1 ≠ b.1) :=
      List.pairwise_map.mp nd2
    exact (s2.and pw).imp (fun h => lt_of_le_of_ne h.1 h.2)
  exact List.eq_of_perm_of_sorted pq st1 st2

/-- Claim C9 is false as stated: with two volumes sharing the name "a"
but different free-space figures, the `HashMap` keeps whichever was
inserted last, so the two enumeration orders of the same volumes produce
different outputs. -/
theorem c9_counterexample :
    ([("a", (0 : Nat)), ("a", 1000000000)]).Perm [("a", 1000000000), ("a", 0)] ∧
    get_disks [("a", 0), ("a", 1000000000)] ≠ get_disks [("a", 1000000000), ("a", 0)] := by
  exact ⟨by decide, by decide⟩

/-- Claim C9 (amended): provided the enumerated volume names are pairwise
distinct, `get_disks` does not depend on the enumeration order the OS
reports, and its output is sorted by volume name. -/
theorem c9_disks_deterministic (l l' : List (String × Nat))
    (hnd : (l.map Prod.fst).Nodup) (hp : l.Perm l') :
    get_disks l = get_disks l' ∧
    (get_disks l).Sorted (fun a b => a.1 ≤ b.1) := by
  have hnd' : (l'.map Prod.fst).Nodup := ((hp.map Prod.fst).nodup_iff).mp hnd
  constructor
  · rw [get_disks_eq_sorted_fmt l hnd, get_disks_eq_sorted_fmt l' hnd']
    apply sort_by_name_perm_eq
    · rw [disks_fmt_keys]
      exact hnd
    · exact hp.map _
  · exact List.sorted_insertionSort _ _

/-- Witness for Claim C9 (amended): two enumeration orders of the
distinctly-named volumes "a" and "b" yield one and the same sorted
output. -/
theorem c9_witness :
    (([("a", (0 : Nat)), ("b", 1000000000)]).map Prod.fst).Nodup ∧
    ([("a", (0 : Nat)), ("b", 1000000000)]).Perm [("b", 1000000000), ("a", 0)] ∧
    (get_disks [("a", 0), ("b", 1000000000)] = get_disks [("b", 1000000000), ("a", 0)] ∧
     (get_disks [("a", 0), ("b", 1000000000)]).Sorted (fun a b => a.1 ≤ b.1)) :=
  ⟨by decide, by decide, c9_disks_deterministic _ _ (by decide) (by decide)⟩

end Vitals

